import Mathlib

/-!
Verification of the waveform-navigator peak-extraction and rendering pipeline.

The definitions below are shallow embeddings of the TypeScript sources:
* `computePeaksFromChannelData` embeds `src/utils/peaksComputation.ts`;
* the `worker*` definitions embed the `compute` handler of `src/peaks.worker.ts`;
* the controller state machines embed `useWaveformData` (geometry recompute and
  audio-load effects) and `useWaveformCanvas` (base-bitmap cache and ready signal);
* `playedWidthOf` embeds the progress-overlay geometry of `drawWaveform`.

JS numbers are modelled as rationals (`ℚ`), `Float32Array`s as `List ℚ`, and
out-of-range indexed reads (which do not occur on the executed paths) as
`List.getD _ _ 0`.
-/

namespace WaveformNav

/-- The inner-loop accumulator of `computePeaksFromChannelData`:
`if (v > max) { max = v }`. -/
def bumpMax (m v : ℚ) : ℚ := if v > m then v else m

/-- Inner loop of `computePeaksFromChannelData`: scan `channelData[s]` for
`s ∈ [a, b)` keeping the running maximum of `Math.abs(channelData[s])`,
starting from `0`. -/
def slotAbsMax (channelData : List ℚ) (a b : ℕ) : ℚ :=
  (List.range' a (b - a)).foldl (fun m s => bumpMax m |channelData.getD s 0|) 0

/-- `Math.max(1, Math.floor(width / (barWidth + gap)))` from
`computePeaksFromChannelData` (the same expression appears in the worker). -/
def slotCount (width barWidth gap : ℚ) : ℕ :=
  (max 1 ⌊width / (barWidth + gap)⌋).toNat

/-- `Math.floor(channelData.length / slot) || 1` (the JS `|| 1` turns a zero
quotient into `1`). -/
def samplesPerSlot (len slot : ℕ) : ℕ :=
  if len / slot = 0 then 1 else len / slot

/-- Shallow embedding of `computePeaksFromChannelData`
(`src/utils/peaksComputation.ts`): slot `i` scans samples in
`[i*samplesPerSlot, min(i*samplesPerSlot + samplesPerSlot, len))`. -/
def computePeaksFromChannelData (channelData : List ℚ) (width barWidth gap : ℚ) :
    List ℚ :=
  let slot := slotCount width barWidth gap
  let sps := samplesPerSlot channelData.length slot
  (List.range slot).map fun i =>
    slotAbsMax channelData (i * sps) (min (i * sps + sps) channelData.length)

/-! ### The background worker (`src/peaks.worker.ts`)

The worker's `compute` handler re-derives `slot` and `samplesPerSlot` from the
message, then iterates over the whole buffer in chunks; each sample `i` is
accumulated into slot `idx = Math.floor(i / samplesPerSlot)` clamped by
`if (idx >= slot) idx = slot - 1`, and after each chunk a snapshot of the
peaks array is posted with `done: end === channelLength`. -/

/-- `let idx = Math.floor(i / samplesPerSlot); if (idx >= slot) idx = slot - 1`. -/
def clampIdx (sps slot i : ℕ) : ℕ :=
  if slot ≤ i / sps then slot - 1 else i / sps

/-- One sample of the worker's accumulation loop:
`const s = Math.abs(channel[i]); ... if (s > peaks[idx]) peaks[idx] = s`. -/
def workerStep (sps slot : ℕ) (peaks : List ℚ) (i : ℕ) (x : ℚ) : List ℚ :=
  let s := |x|
  let idx := clampIdx sps slot i
  if s > peaks.getD idx 0 then peaks.set idx s else peaks

/-- The worker's accumulation over sample indices `[a, a+n)`. -/
def workerScan (sps slot : ℕ) (channel : List ℚ) (a n : ℕ) (peaks : List ℚ) :
    List ℚ :=
  (List.range' a n).foldl (fun p i => workerStep sps slot p i (channel.getD i 0)) peaks

/-- The chunked outer loop of the worker, producing the stream of `progress`
events, each a snapshot of the peaks array together with its `done` flag.
The fuel argument bounds the number of chunks; `fuel = len` suffices whenever
the chunk size is positive. -/
def workerEventsAux (sps slot chunk : ℕ) (channel : List ℚ) (len : ℕ) :
    ℕ → ℕ → List ℚ → List (List ℚ × Bool)
  | 0, _, _ => []
  | fuel + 1, offset, peaks =>
    if offset < len then
      let e := min (offset + chunk) len
      let p2 := workerScan sps slot channel offset (e - offset) peaks
      (p2, decide (e = len)) :: workerEventsAux sps slot chunk channel len fuel e p2
    else []

/-- The full event stream emitted by the worker's `compute` handler for a
given buffer, geometry and chunk size (the hook always passes
`chunkSize: 262144`). -/
def workerOnCompute (channel : List ℚ) (width barWidth gap : ℚ) (chunk : ℕ) :
    List (List ℚ × Bool) :=
  let len := channel.length
  let slot := slotCount width barWidth gap
  let sps := samplesPerSlot len slot
  workerEventsAux sps slot chunk channel len len 0 (List.replicate slot 0)

/-- The payload of the final event of the worker's stream (the `done = true`
event).  For an empty buffer the worker's loop body never runs and no event is
posted at all; in that case we take the untouched all-zero accumulator. -/
def workerFinalPeaks (channel : List ℚ) (width barWidth gap : ℚ) (chunk : ℕ) :
    List ℚ :=
  match (workerOnCompute channel width barWidth gap chunk).getLast? with
  | some e => e.1
  | none => List.replicate (slotCount width barWidth gap) 0

/-- The worker's accumulation over the entire buffer in one pass (chunking
only decides where snapshots are taken, not the accumulated values). -/
def workerFullScan (channel : List ℚ) (width barWidth gap : ℚ) : List ℚ :=
  let slot := slotCount width barWidth gap
  let sps := samplesPerSlot channel.length slot
  workerScan sps slot channel 0 channel.length (List.replicate slot 0)

/-! ### Generic lemmas about running maxima -/

theorem bumpMax_eq_max (m v : ℚ) : bumpMax m v = max m v := by
  unfold bumpMax
  rcases lt_or_le m v with h | h
  · simp [h, max_eq_right h.le]
  · simp [not_lt.2 h, max_eq_left h]

theorem foldl_bumpMax_eq_foldl_max (f : ℕ → ℚ) (L : List ℕ) (init : ℚ) :
    L.foldl (fun m s => bumpMax m (f s)) init = L.foldl (fun m s => max m (f s)) init := by
  induction L generalizing init with
  | nil => rfl
  | cons a L ih => simp only [List.foldl_cons, bumpMax_eq_max, ih]

theorem init_le_foldl_max (f : ℕ → ℚ) (L : List ℕ) (init : ℚ) :
    init ≤ L.foldl (fun m s => max m (f s)) init := by
  induction L generalizing init with
  | nil => exact le_refl _
  | cons a L ih => exact le_trans (le_max_left _ _) (ih _)

theorem foldl_max_le_of_mem (f : ℕ → ℚ) (L : List ℕ) (init : ℚ) {s : ℕ}
    (hs : s ∈ L) : f s ≤ L.foldl (fun m s => max m (f s)) init := by
  induction L generalizing init with
  | nil => cases hs
  | cons a L ih =>
    rcases List.mem_cons.1 hs with rfl | hmem
    · exact le_trans (le_max_right _ _) (init_le_foldl_max f L _)
    · exact ih _ hmem

theorem foldl_max_eq_init_or_mem (f : ℕ → ℚ) (L : List ℕ) (init : ℚ) :
    L.foldl (fun m s => max m (f s)) init = init ∨
      ∃ s ∈ L, L.foldl (fun m s => max m (f s)) init = f s := by
  induction L generalizing init with
  | nil => exact Or.inl rfl
  | cons a L ih =>
    rcases ih (max init (f a)) with h | ⟨s, hs, h⟩
    · rcases le_total (f a) init with hle | hle
      · left
        simpa [max_eq_left hle] using h
      · right
        exact ⟨a, List.mem_cons_self .., by simpa [max_eq_right hle] using h⟩
    · exact Or.inr ⟨s, List.mem_cons_of_mem _ hs, h⟩

theorem foldl_max_le (f : ℕ → ℚ) (L : List ℕ) (init c : ℚ) (h0 : init ≤ c)
    (h : ∀ s ∈ L, f s ≤ c) :
    L.foldl (fun m s => max m (f s)) init ≤ c := by
  induction L generalizing init with
  | nil => exact h0
  | cons a L ih =>
    exact ih _ (max_le h0 (h a (List.mem_cons_self ..)))
      (fun s hs => h s (List.mem_cons_of_mem _ hs))

theorem foldl_max_if_eq_filter (P : ℕ → Prop) [DecidablePred P] (f : ℕ → ℚ)
    (L : List ℕ) (init : ℚ) :
    L.foldl (fun m s => if P s then max m (f s) else m) init =
      (L.filter (fun s => decide (P s))).foldl (fun m s => max m (f s)) init := by
  induction L generalizing init with
  | nil => rfl
  | cons a L ih =>
    by_cases hp : P a <;> simp [List.filter_cons, hp, ih]

/-! ### Index arithmetic for the clamped slot index -/

theorem div_eq_iff_interval {sps : ℕ} (hsps : 0 < sps) (i j : ℕ) :
    i / sps = j ↔ j * sps ≤ i ∧ i < (j + 1) * sps := by
  constructor
  · rintro rfl
    refine ⟨Nat.div_mul_le_self i sps, ?_⟩
    have h1 := Nat.div_add_mod i sps
    have h2 := Nat.mod_lt i hsps
    calc i = sps * (i / sps) + i % sps := h1.symm
      _ < sps * (i / sps) + sps := by omega
      _ = (i / sps + 1) * sps := by ring
  · rintro ⟨h1, h2⟩
    exact Nat.div_eq_of_lt_le (by linarith) (by linarith)

theorem clampIdx_eq_iff_of_lt {sps slot : ℕ} (hsps : 0 < sps) {j : ℕ}
    (hj : j + 1 < slot) (i : ℕ) :
    clampIdx sps slot i = j ↔ j * sps ≤ i ∧ i < (j + 1) * sps := by
  unfold clampIdx
  by_cases hge : slot ≤ i / sps
  · simp only [hge, if_pos]
    constructor
    · intro h
      omega
    · rintro ⟨h1, h2⟩
      have : i / sps = j := (div_eq_iff_interval hsps i j).2 ⟨h1, h2⟩
      omega
  · simp only [hge, if_neg, not_false_iff]
    exact div_eq_iff_interval hsps i j

theorem clampIdx_eq_last_iff {sps slot : ℕ} (hsps : 0 < sps) (hslot : 0 < slot)
    (i : ℕ) :
    clampIdx sps slot i = slot - 1 ↔ (slot - 1) * sps ≤ i := by
  unfold clampIdx
  by_cases hge : slot ≤ i / sps
  · simp only [hge, if_pos, true_iff]
    have : slot - 1 ≤ i / sps := by omega
    exact (Nat.le_div_iff_mul_le hsps).1 this
  · simp only [hge, if_neg, not_false_iff]
    rw [← Nat.le_div_iff_mul_le hsps]
    constructor
    · intro h
      omega
    · intro h
      omega

/-! ### List indexing helpers -/

theorem getD_set (l : List ℚ) (i j : ℕ) (a : ℚ) :
    (l.set i a).getD j 0 = if i = j ∧ j < l.length then a else l.getD j 0 := by
  rw [List.getD_eq_getElem?_getD, List.getD_eq_getElem?_getD, List.getElem?_set]
  by_cases hij : i = j
  · subst hij
    by_cases hlen : i < l.length
    · simp [hlen]
    · simp [hlen, List.getElem?_eq_none (show l.length ≤ i by omega)]
  · simp [hij]

theorem getD_replicate_zero (n j : ℕ) :
    (List.replicate n (0 : ℚ)).getD j 0 = 0 := by
  rw [List.getD_eq_getElem?_getD, List.getElem?_replicate]
  by_cases h : j < n <;> simp [h]

theorem getD_map_range (f : ℕ → ℚ) (n i : ℕ) (h : i < n) :
    ((List.range n).map f).getD i 0 = f i := by
  rw [List.getD_eq_getElem?_getD, List.getElem?_map, List.getElem?_range h]
  rfl

/-! ### Characterizing the worker's accumulation -/

theorem workerStep_length (sps slot : ℕ) (p : List ℚ) (i : ℕ) (x : ℚ) :
    (workerStep sps slot p i x).length = p.length := by
  simp only [workerStep]
  split <;> simp

theorem workerScan_length (sps slot : ℕ) (ch : List ℚ) (a n : ℕ) (p : List ℚ) :
    (workerScan sps slot ch a n p).length = p.length := by
  unfold workerScan
  induction n generalizing a p with
  | zero => rfl
  | succ n ih =>
    rw [List.range'_succ, List.foldl_cons, ih]
    exact workerStep_length ..

theorem workerStep_getD (sps slot : ℕ) (p : List ℚ) (i : ℕ) (x : ℚ) {j : ℕ}
    (hj : j < p.length) :
    (workerStep sps slot p i x).getD j 0 =
      if clampIdx sps slot i = j then max (p.getD j 0) |x| else p.getD j 0 := by
  unfold workerStep
  by_cases hidx : clampIdx sps slot i = j
  · rw [hidx]
    by_cases hgt : |x| > p.getD j 0
    · rw [if_pos hgt, if_pos rfl, getD_set, if_pos ⟨rfl, hj⟩]
      exact (max_eq_right hgt.le).symm
    · rw [if_neg hgt, if_pos rfl]
      exact (max_eq_left (not_lt.1 hgt)).symm
  · rw [if_neg hidx]
    by_cases hgt : |x| > p.getD (clampIdx sps slot i) 0
    · rw [if_pos hgt, getD_set, if_neg (fun h => hidx h.1)]
    · rw [if_neg hgt]

theorem workerScan_getD (sps slot : ℕ) (ch : List ℚ) (a n : ℕ) (p : List ℚ)
    {j : ℕ} (hj : j < p.length) :
    (workerScan sps slot ch a n p).getD j 0 =
      (List.range' a n).foldl
        (fun m i => if clampIdx sps slot i = j then max m |ch.getD i 0| else m)
        (p.getD j 0) := by
  unfold workerScan
  induction n generalizing a p with
  | zero => rfl
  | succ n ih =>
    rw [List.range'_succ, List.foldl_cons, List.foldl_cons]
    have hlen : j < (workerStep sps slot p a (ch.getD a 0)).length := by
      rw [workerStep_length]; exact hj
    rw [ih _ _ hlen, workerStep_getD _ _ _ _ _ hj]

/-- Filtering `List.range n` by membership in `[l, r)` yields the interval
`[l, min r n)` as a `range'`. -/
theorem filter_range_interval (n l r : ℕ) :
    (List.range n).filter (fun i => decide (l ≤ i ∧ i < r)) =
      List.range' l (min r n - l) := by
  induction n with
  | zero =>
    simp only [List.range_zero, List.filter_nil]
    have h0 : min r 0 - l = 0 := by omega
    rw [h0, List.range'_zero]
  | succ n ih =>
    rw [List.range_succ, List.filter_append, ih]
    by_cases hl : l ≤ n
    · by_cases hr : n < r
      · have hpred : (fun i => decide (l ≤ i ∧ i < r)) n = true := by
          simp only [decide_eq_true_eq]
          exact ⟨hl, hr⟩
        have hmin1 : min r (n + 1) = n + 1 := by omega
        have hmin2 : min r n = n := by omega
        rw [hmin1, hmin2]
        have hcount : n + 1 - l = (n - l) + 1 := by omega
        rw [hcount, List.range'_concat]
        simp only [List.filter_cons, hpred, if_pos, List.filter_nil]
        congr 2
        omega
      · have hpred : (fun i => decide (l ≤ i ∧ i < r)) n = false := by
          simp only [decide_eq_false_iff_not, not_and, not_lt]
          intro _
          omega
        have hmin : min r (n + 1) = min r n := by omega
        rw [hmin]
        simp only [List.filter_cons, hpred, Bool.false_eq_true, if_false,
          List.filter_nil, List.append_nil]
    · have hpred : (fun i => decide (l ≤ i ∧ i < r)) n = false := by
        simp only [decide_eq_false_iff_not, not_and, not_lt]
        intro h
        omega
      have hcount : min r (n + 1) - l = min r n - l := by omega
      rw [hcount]
      simp only [List.filter_cons, hpred, Bool.false_eq_true, if_false,
        List.filter_nil, List.append_nil]

/-! ### The chunked event stream: its final event is the full scan -/

theorem workerScan_split (sps slot : ℕ) (ch : List ℚ) (a n1 n2 : ℕ) (p : List ℚ) :
    workerScan sps slot ch (a + n1) n2 (workerScan sps slot ch a n1 p) =
      workerScan sps slot ch a (n1 + n2) p := by
  unfold workerScan
  rw [← List.foldl_append]
  congr 1
  have h := List.range'_append a n1 n2 1
  simp only [one_mul, Nat.add_comm n2 n1] at h
  exact h

theorem workerEventsAux_eq_nil (sps slot chunk : ℕ) (ch : List ℚ)
    (len fuel offset : ℕ) (p : List ℚ) (h : len ≤ offset) :
    workerEventsAux sps slot chunk ch len fuel offset p = [] := by
  cases fuel with
  | zero => rfl
  | succ fuel =>
    unfold workerEventsAux
    rw [if_neg (not_lt.2 h)]

theorem getLast?_cons_of_getLast? {α : Type} (a : α) {l : List α} {x : α}
    (h : l.getLast? = some x) : (a :: l).getLast? = some x := by
  cases l with
  | nil => simp at h
  | cons b t => rw [List.getLast?_cons_cons]; exact h

theorem workerEventsAux_getLast (sps slot chunk : ℕ) (ch : List ℚ) (len : ℕ)
    (hchunk : 0 < chunk) :
    ∀ (fuel offset : ℕ) (peaks : List ℚ), offset < len → len ≤ offset + fuel →
      (workerEventsAux sps slot chunk ch len fuel offset peaks).getLast? =
        some (workerScan sps slot ch offset (len - offset) peaks, true) := by
  intro fuel
  induction fuel with
  | zero =>
    intro offset peaks h1 h2
    omega
  | succ fuel ih =>
    intro offset peaks h1 h2
    unfold workerEventsAux
    rw [if_pos h1]
    dsimp only
    by_cases he : min (offset + chunk) len = len
    · have htail : workerEventsAux sps slot chunk ch len fuel (min (offset + chunk) len)
          (workerScan sps slot ch offset (min (offset + chunk) len - offset) peaks) = [] :=
        workerEventsAux_eq_nil _ _ _ _ _ _ _ _ (le_of_eq he.symm)
      rw [htail, he]
      simp
    · have he2 : min (offset + chunk) len < len := by omega
      have hoff : offset + 1 ≤ min (offset + chunk) len := by omega
      have ihres := ih (min (offset + chunk) len)
        (workerScan sps slot ch offset (min (offset + chunk) len - offset) peaks) he2
        (by omega)
      rw [getLast?_cons_of_getLast? _ ihres]
      have hsplit : workerScan sps slot ch (offset + (min (offset + chunk) len - offset))
            (len - min (offset + chunk) len)
            (workerScan sps slot ch offset (min (offset + chunk) len - offset) peaks) =
          workerScan sps slot ch offset
            ((min (offset + chunk) len - offset) + (len - min (offset + chunk) len)) peaks :=
        workerScan_split ..
      have harg1 : offset + (min (offset + chunk) len - offset) = min (offset + chunk) len := by
        omega
      have harg2 : (min (offset + chunk) len - offset) + (len - min (offset + chunk) len) =
          len - offset := by
        omega
      rw [harg1, harg2] at hsplit
      rw [hsplit]

theorem workerFinalPeaks_eq_fullScan (ch : List ℚ) (w bw g : ℚ) (chunk : ℕ)
    (hchunk : 0 < chunk) :
    workerFinalPeaks ch w bw g chunk = workerFullScan ch w bw g := by
  unfold workerFinalPeaks workerOnCompute workerFullScan
  by_cases hlen : ch.length = 0
  · rw [workerEventsAux_eq_nil _ _ _ _ _ _ _ _ (by omega)]
    simp only [List.getLast?_nil]
    rw [hlen]
    rfl
  · have h1 : 0 < ch.length := Nat.pos_of_ne_zero hlen
    rw [workerEventsAux_getLast _ _ _ _ _ hchunk ch.length 0 _ h1 (by omega)]
    simp only [Nat.sub_zero]

/-! ### Slot-wise values of the two passes -/

/-- The running maximum of `|ch[s]|` over a list of sample indices. -/
def absMaxOver (ch : List ℚ) (L : List ℕ) : ℚ :=
  L.foldl (fun m s => max m |ch.getD s 0|) 0

theorem slotAbsMax_eq_absMaxOver (ch : List ℚ) (a b : ℕ) :
    slotAbsMax ch a b = absMaxOver ch (List.range' a (b - a)) :=
  foldl_bumpMax_eq_foldl_max _ _ _

theorem samplesPerSlot_pos (len slot : ℕ) : 0 < samplesPerSlot len slot := by
  unfold samplesPerSlot
  by_cases h : len / slot = 0
  · rw [if_pos h]
    exact Nat.one_pos
  · rw [if_neg h]
    exact Nat.pos_of_ne_zero h

theorem slotCount_pos (w bw g : ℚ) : 0 < slotCount w bw g := by
  unfold slotCount
  have h := le_max_left (1 : ℤ) ⌊w / (bw + g)⌋
  omega

theorem computePeaks_length (ch : List ℚ) (w bw g : ℚ) :
    (computePeaksFromChannelData ch w bw g).length = slotCount w bw g := by
  unfold computePeaksFromChannelData
  rw [List.length_map, List.length_range]

theorem computePeaks_getD (ch : List ℚ) (w bw g : ℚ) {i : ℕ}
    (hi : i < slotCount w bw g) :
    (computePeaksFromChannelData ch w bw g).getD i 0 =
      absMaxOver ch
        (List.range' (i * samplesPerSlot ch.length (slotCount w bw g))
          (min (i * samplesPerSlot ch.length (slotCount w bw g) +
              samplesPerSlot ch.length (slotCount w bw g)) ch.length -
            i * samplesPerSlot ch.length (slotCount w bw g))) := by
  unfold computePeaksFromChannelData
  dsimp only
  rw [getD_map_range _ _ _ hi, slotAbsMax_eq_absMaxOver]

theorem workerFullScan_length (ch : List ℚ) (w bw g : ℚ) :
    (workerFullScan ch w bw g).length = slotCount w bw g := by
  unfold workerFullScan
  rw [workerScan_length, List.length_replicate]

theorem workerFullScan_getD (ch : List ℚ) (w bw g : ℚ) {j : ℕ}
    (hj : j < slotCount w bw g) :
    (workerFullScan ch w bw g).getD j 0 =
      absMaxOver ch
        ((List.range ch.length).filter fun i =>
          decide (clampIdx (samplesPerSlot ch.length (slotCount w bw g))
            (slotCount w bw g) i = j)) := by
  unfold workerFullScan
  dsimp only
  have hj' : j < (List.replicate (slotCount w bw g) (0 : ℚ)).length := by
    simpa using hj
  rw [workerScan_getD _ _ _ _ _ _ hj', getD_replicate_zero, ← List.range_eq_range']
  exact foldl_max_if_eq_filter _ _ _ _

/-- Away from the final slot, the worker's accumulation ranges over exactly the
interval scanned by the main-thread pass. -/
theorem workerFullScan_getD_of_lt (ch : List ℚ) (w bw g : ℚ) {j : ℕ}
    (hj : j + 1 < slotCount w bw g) :
    (workerFullScan ch w bw g).getD j 0 =
      (computePeaksFromChannelData ch w bw g).getD j 0 := by
  have hsps := samplesPerSlot_pos ch.length (slotCount w bw g)
  rw [workerFullScan_getD ch w bw g (by omega), computePeaks_getD ch w bw g (by omega)]
  congr 1
  have hcongr : ((List.range ch.length).filter fun i =>
        decide (clampIdx (samplesPerSlot ch.length (slotCount w bw g))
          (slotCount w bw g) i = j)) =
      (List.range ch.length).filter fun i =>
        decide (j * samplesPerSlot ch.length (slotCount w bw g) ≤ i ∧
          i < (j + 1) * samplesPerSlot ch.length (slotCount w bw g)) := by
    refine List.filter_congr fun i _ => ?_
    exact decide_eq_decide.2 (clampIdx_eq_iff_of_lt hsps hj i)
  rw [hcongr, filter_range_interval]
  congr 1
  rw [Nat.succ_mul]

/-- On the final slot the worker scans `[(slot-1)*sps, len)`: every trailing
remainder sample is folded in. -/
theorem workerFullScan_getD_last (ch : List ℚ) (w bw g : ℚ) :
    (workerFullScan ch w bw g).getD (slotCount w bw g - 1) 0 =
      absMaxOver ch
        (List.range' ((slotCount w bw g - 1) * samplesPerSlot ch.length (slotCount w bw g))
          (ch.length -
            (slotCount w bw g - 1) * samplesPerSlot ch.length (slotCount w bw g))) := by
  have hsps := samplesPerSlot_pos ch.length (slotCount w bw g)
  have hslot := slotCount_pos w bw g
  rw [workerFullScan_getD ch w bw g (by omega)]
  congr 1
  have hcongr : ((List.range ch.length).filter fun i =>
        decide (clampIdx (samplesPerSlot ch.length (slotCount w bw g))
          (slotCount w bw g) i = slotCount w bw g - 1)) =
      (List.range ch.length).filter fun i =>
        decide ((slotCount w bw g - 1) * samplesPerSlot ch.length (slotCount w bw g) ≤ i ∧
          i < ch.length) := by
    refine List.filter_congr fun i hi => ?_
    have hmem : i < ch.length := List.mem_range.1 hi
    refine decide_eq_decide.2 ?_
    rw [clampIdx_eq_last_iff hsps hslot]
    constructor
    · intro h
      exact ⟨h, hmem⟩
    · intro h
      exact h.1
  rw [hcongr, filter_range_interval, Nat.min_self]

theorem absMaxOver_prefix_le (ch : List ℚ) (L1 L2 : List ℕ) :
    absMaxOver ch L1 ≤ absMaxOver ch (L1 ++ L2) := by
  unfold absMaxOver
  rw [List.foldl_append]
  exact init_le_foldl_max _ _ _

/-- The main-thread value of the final slot never exceeds the worker's,
because the worker additionally folds in the trailing remainder samples. -/
theorem computePeaks_last_le_worker (ch : List ℚ) (w bw g : ℚ) :
    (computePeaksFromChannelData ch w bw g).getD (slotCount w bw g - 1) 0 ≤
      (workerFullScan ch w bw g).getD (slotCount w bw g - 1) 0 := by
  have hslot := slotCount_pos w bw g
  rw [computePeaks_getD ch w bw g (by omega), workerFullScan_getD_last]
  set sps := samplesPerSlot ch.length (slotCount w bw g) with hsps
  set l := (slotCount w bw g - 1) * sps with hl
  set len := ch.length with hlen
  by_cases hcase : len ≤ l
  · have hc1 : min (l + sps) len - l = 0 := by omega
    have hc2 : len - l = 0 := by omega
    rw [hc1, hc2]
  · have happ := List.range'_append l (min (l + sps) len - l) (len - min (l + sps) len) 1
    simp only [one_mul] at happ
    have harg1 : l + (min (l + sps) len - l) = min (l + sps) len := by omega
    have harg2 : len - min (l + sps) len + (min (l + sps) len - l) = len - l := by omega
    rw [harg1, harg2] at happ
    rw [← happ]
    exact absMaxOver_prefix_le ..

/-- When there are no trailing remainder samples the two passes coincide on
every slot, the final one included. -/
theorem pred_mul_add (n m : ℕ) (hn : 0 < n) : (n - 1) * m + m = n * m := by
  cases n with
  | zero => omega
  | succ k => simp [Nat.succ_sub_one, Nat.succ_mul]

theorem workerFullScan_eq_computePeaks (ch : List ℚ) (w bw g : ℚ)
    (hrem : ch.length ≤ slotCount w bw g * samplesPerSlot ch.length (slotCount w bw g)) :
    workerFullScan ch w bw g = computePeaksFromChannelData ch w bw g := by
  have hslot := slotCount_pos w bw g
  apply List.ext_getElem
  · rw [workerFullScan_length, computePeaks_length]
  intro n h1 h2
  have hn1 : n < slotCount w bw g := by
    have h1' := h1
    rwa [workerFullScan_length] at h1'
  have hgd : (workerFullScan ch w bw g).getD n 0 =
      (computePeaksFromChannelData ch w bw g).getD n 0 := by
    by_cases hn : n + 1 < slotCount w bw g
    · exact workerFullScan_getD_of_lt ch w bw g hn
    · have hn2 : n = slotCount w bw g - 1 := by omega
      subst hn2
      rw [workerFullScan_getD_last, computePeaks_getD ch w bw g (by omega)]
      have hcount : min ((slotCount w bw g - 1) * samplesPerSlot ch.length (slotCount w bw g) +
            samplesPerSlot ch.length (slotCount w bw g)) ch.length -
            (slotCount w bw g - 1) * samplesPerSlot ch.length (slotCount w bw g) =
          ch.length - (slotCount w bw g - 1) * samplesPerSlot ch.length (slotCount w bw g) := by
        rw [pred_mul_add _ _ hslot]
        omega
      rw [hcount]
  rw [List.getD_eq_getElem _ 0 h1, List.getD_eq_getElem _ 0 h2] at hgd
  exact hgd

/-- C1: the worker's final (`done = true`) peaks array and the main-thread
`computePeaksFromChannelData` agree on every slot except possibly the final
one; on the final slot the worker folds the trailing remainder samples in (so
its value dominates the main-thread value), and the two arrays are equal
exactly as stated whenever there are no remainder samples beyond
`samplesPerSlot * slotCount`. -/
theorem c1_worker_final_vs_main_thread (ch : List ℚ) (w bw g : ℚ) (chunk : ℕ)
    (hchunk : 0 < chunk) :
    (∀ j, j + 1 < slotCount w bw g →
      (workerFinalPeaks ch w bw g chunk).getD j 0 =
        (computePeaksFromChannelData ch w bw g).getD j 0) ∧
    (computePeaksFromChannelData ch w bw g).getD (slotCount w bw g - 1) 0 ≤
      (workerFinalPeaks ch w bw g chunk).getD (slotCount w bw g - 1) 0 ∧
    (ch.length ≤ slotCount w bw g * samplesPerSlot ch.length (slotCount w bw g) →
      workerFinalPeaks ch w bw g chunk = computePeaksFromChannelData ch w bw g) := by
  rw [workerFinalPeaks_eq_fullScan ch w bw g chunk hchunk]
  exact ⟨fun j hj => workerFullScan_getD_of_lt ch w bw g hj,
    computePeaks_last_le_worker ch w bw g,
    fun h => workerFullScan_eq_computePeaks ch w bw g h⟩

/-- C1 witness: the agreement theorem evaluated at a concrete buffer and
geometry with the worker's default chunk size. -/
theorem c1_worker_final_vs_main_thread_witness :
    0 < 262144 ∧
    ((∀ j, j + 1 < slotCount 2 1 0 →
      (workerFinalPeaks [0, 0, 0, 0, 1] 2 1 0 262144).getD j 0 =
        (computePeaksFromChannelData [0, 0, 0, 0, 1] 2 1 0).getD j 0) ∧
    (computePeaksFromChannelData [0, 0, 0, 0, 1] 2 1 0).getD (slotCount 2 1 0 - 1) 0 ≤
      (workerFinalPeaks [0, 0, 0, 0, 1] 2 1 0 262144).getD (slotCount 2 1 0 - 1) 0 ∧
    (([0, 0, 0, 0, 1] : List ℚ).length ≤
        slotCount 2 1 0 * samplesPerSlot ([0, 0, 0, 0, 1] : List ℚ).length (slotCount 2 1 0) →
      workerFinalPeaks [0, 0, 0, 0, 1] 2 1 0 262144 =
        computePeaksFromChannelData [0, 0, 0, 0, 1] 2 1 0)) :=
  ⟨by decide, c1_worker_final_vs_main_thread [0, 0, 0, 0, 1] 2 1 0 262144 (by decide)⟩

/-- C1 counterexample: on the 5-sample buffer `[0,0,0,0,1]` with `width = 2`,
`barWidth = 1`, `gap = 0` the worker's final `done = true` event carries
`[0, 1]` (the trailing remainder sample `1` is folded into the last slot)
while the main-thread pass returns `[0, 0]` (the remainder is dropped), so
the two passes are not element-for-element equal. -/
theorem slotCount_two_one_zero : slotCount 2 1 0 = 2 := by
  unfold slotCount
  rw [show ⌊(2 : ℚ) / (1 + 0)⌋ = 2 by norm_num]
  decide

theorem c1_counterexample :
    workerFinalPeaks [0, 0, 0, 0, 1] 2 1 0 262144 ≠
      computePeaksFromChannelData [0, 0, 0, 0, 1] 2 1 0 ∧
    (workerOnCompute [0, 0, 0, 0, 1] 2 1 0 262144).getLast? =
      some ([0, 1], true) ∧
    workerFinalPeaks [0, 0, 0, 0, 1] 2 1 0 262144 = [0, 1] ∧
    computePeaksFromChannelData [0, 0, 0, 0, 1] 2 1 0 = [0, 0] := by
  have hmain : computePeaksFromChannelData [0, 0, 0, 0, 1] 2 1 0 = [0, 0] := by
    unfold computePeaksFromChannelData
    rw [slotCount_two_one_zero]
    decide
  have hworker : (workerOnCompute [0, 0, 0, 0, 1] 2 1 0 262144).getLast? =
      some ([0, 1], true) := by
    unfold workerOnCompute
    rw [slotCount_two_one_zero]
    decide
  have hfinal : workerFinalPeaks [0, 0, 0, 0, 1] 2 1 0 262144 = [0, 1] := by
    unfold workerFinalPeaks workerOnCompute
    rw [slotCount_two_one_zero]
    decide
  refine ⟨?_, hworker, hfinal, hmain⟩
  rw [hfinal, hmain]
  decide

/-! ### C3, C4, C5: shape and slot semantics of the main-thread extractor -/

/-- C3: for `width > 0`, `barWidth > 0`, `gap ≥ 0` the extract result has
length exactly `max(1, ⌊width / (barWidth + gap)⌋)`, which is always at
least 1, degenerate geometry included. -/
theorem c3_result_length (ch : List ℚ) (w bw g : ℚ)
    (hw : 0 < w) (hbw : 0 < bw) (hg : 0 ≤ g) :
    (computePeaksFromChannelData ch w bw g).length = (max 1 ⌊w / (bw + g)⌋).toNat ∧
    1 ≤ (computePeaksFromChannelData ch w bw g).length := by
  refine ⟨?_, ?_⟩
  · rw [computePeaks_length]
    rfl
  · rw [computePeaks_length]
    exact slotCount_pos w bw g

/-- C3 witness: the spec's own degenerate example `width = 3`, `barWidth = 2`,
`gap = 1` yields a single slot. -/
theorem c3_result_length_witness :
    (0 : ℚ) < 3 ∧ (0 : ℚ) < 2 ∧ (0 : ℚ) ≤ 1 ∧
    ((computePeaksFromChannelData [1, 0, 1, 0] 3 2 1).length =
        (max 1 ⌊(3 : ℚ) / (2 + 1)⌋).toNat ∧
      1 ≤ (computePeaksFromChannelData [1, 0, 1, 0] 3 2 1).length) :=
  ⟨by decide, by decide, by decide,
    c3_result_length [1, 0, 1, 0] 3 2 1 (by decide) (by decide) (by decide)⟩

theorem getD_nil_q (s : ℕ) : ([] : List ℚ).getD s 0 = 0 := by
  rw [List.getD_eq_getElem?_getD]
  rfl

theorem absMaxOver_nil (L : List ℕ) : absMaxOver [] L = 0 := by
  unfold absMaxOver
  induction L with
  | nil => rfl
  | cons a L ih =>
    rw [List.foldl_cons, getD_nil_q, abs_zero, max_self]
    exact ih

/-- C4: each slot value of the extract result is the exact maximum of
`|samples[s]|` over `[i*sps, min((i+1)*sps, len))` — `0` when that range is
empty (remainder samples are dropped, not folded into the final slot) — where
`sps = samplesPerSlot = max(1, ⌊len / slotCount⌋)`, and every slot value lies
in `[0, 1]` whenever all samples lie in `[-1, 1]`. -/
theorem c4_slot_values (ch : List ℚ) (w bw g : ℚ)
    (hw : 0 < w) (hbw : 0 < bw) (hg : 0 ≤ g) {i : ℕ} (hi : i < slotCount w bw g) :
    samplesPerSlot ch.length (slotCount w bw g) =
      max 1 (ch.length / slotCount w bw g) ∧
    (∀ s, i * samplesPerSlot ch.length (slotCount w bw g) ≤ s →
      s < min ((i + 1) * samplesPerSlot ch.length (slotCount w bw g)) ch.length →
      |ch.getD s 0| ≤ (computePeaksFromChannelData ch w bw g).getD i 0) ∧
    (min ((i + 1) * samplesPerSlot ch.length (slotCount w bw g)) ch.length ≤
        i * samplesPerSlot ch.length (slotCount w bw g) →
      (computePeaksFromChannelData ch w bw g).getD i 0 = 0) ∧
    ((computePeaksFromChannelData ch w bw g).getD i 0 = 0 ∨
      ∃ s, i * samplesPerSlot ch.length (slotCount w bw g) ≤ s ∧
        s < min ((i + 1) * samplesPerSlot ch.length (slotCount w bw g)) ch.length ∧
        (computePeaksFromChannelData ch w bw g).getD i 0 = |ch.getD s 0|) ∧
    ((∀ x ∈ ch, -1 ≤ x ∧ x ≤ 1) →
      0 ≤ (computePeaksFromChannelData ch w bw g).getD i 0 ∧
        (computePeaksFromChannelData ch w bw g).getD i 0 ≤ 1) := by
  have hchar := computePeaks_getD ch w bw g hi
  have hmul : (i + 1) * samplesPerSlot ch.length (slotCount w bw g) =
      i * samplesPerSlot ch.length (slotCount w bw g) +
        samplesPerSlot ch.length (slotCount w bw g) := Nat.succ_mul ..
  refine ⟨?_, ?_, ?_, ?_, ?_⟩
  · unfold samplesPerSlot
    by_cases h : ch.length / slotCount w bw g = 0
    · rw [if_pos h, h]
      rfl
    · rw [if_neg h]
      have hpos : 0 < ch.length / slotCount w bw g := Nat.pos_of_ne_zero h
      omega
  · intro s hs1 hs2
    rw [hmul] at hs2
    rw [hchar]
    refine foldl_max_le_of_mem _ _ _ (List.mem_range'_1.2 ⟨hs1, ?_⟩)
    omega
  · intro hempty
    rw [hmul] at hempty
    rw [hchar]
    have hcount : min (i * samplesPerSlot ch.length (slotCount w bw g) +
        samplesPerSlot ch.length (slotCount w bw g)) ch.length -
        i * samplesPerSlot ch.length (slotCount w bw g) = 0 := by
      omega
    rw [hcount]
    rfl
  · rw [hchar]
    rcases foldl_max_eq_init_or_mem (fun s => |ch.getD s 0|)
        (List.range' (i * samplesPerSlot ch.length (slotCount w bw g))
          (min (i * samplesPerSlot ch.length (slotCount w bw g) +
              samplesPerSlot ch.length (slotCount w bw g)) ch.length -
            i * samplesPerSlot ch.length (slotCount w bw g))) 0 with h | ⟨s, hs, h⟩
    · exact Or.inl h
    · refine Or.inr ⟨s, ?_, ?_, h⟩
      · exact (List.mem_range'_1.1 hs).1
      · have ha := (List.mem_range'_1.1 hs).1
        have hb := (List.mem_range'_1.1 hs).2
        rw [hmul]
        omega
  · intro hbound
    rw [hchar]
    constructor
    · exact init_le_foldl_max _ _ _
    · refine foldl_max_le _ _ _ _ (by norm_num) ?_
      intro s hs
      have ha := (List.mem_range'_1.1 hs).1
      have hb := (List.mem_range'_1.1 hs).2
      have hslen : s < ch.length := by omega
      rw [List.getD_eq_getElem _ _ hslen]
      have hx := hbound _ (List.getElem_mem hslen)
      exact abs_le.2 hx

/-- C4 witness: the single-slot geometry `width = 3`, `barWidth = 2`,
`gap = 1` on a concrete buffer. -/
theorem slotCount_three_two_one : slotCount 3 2 1 = 1 := by
  unfold slotCount
  rw [show ⌊(3 : ℚ) / (2 + 1)⌋ = 1 by norm_num]
  decide

theorem c4_slot_values_witness :
    (0 : ℚ) < 3 ∧ (0 : ℚ) < 2 ∧ (0 : ℚ) ≤ 1 ∧ 0 < slotCount 3 2 1 ∧
    (samplesPerSlot ([1, 0, 1, 0] : List ℚ).length (slotCount 3 2 1) =
      max 1 (([1, 0, 1, 0] : List ℚ).length / slotCount 3 2 1) ∧
    (∀ s, 0 * samplesPerSlot ([1, 0, 1, 0] : List ℚ).length (slotCount 3 2 1) ≤ s →
      s < min ((0 + 1) * samplesPerSlot ([1, 0, 1, 0] : List ℚ).length (slotCount 3 2 1))
        ([1, 0, 1, 0] : List ℚ).length →
      |([1, 0, 1, 0] : List ℚ).getD s 0| ≤
        (computePeaksFromChannelData [1, 0, 1, 0] 3 2 1).getD 0 0) ∧
    (min ((0 + 1) * samplesPerSlot ([1, 0, 1, 0] : List ℚ).length (slotCount 3 2 1))
        ([1, 0, 1, 0] : List ℚ).length ≤
        0 * samplesPerSlot ([1, 0, 1, 0] : List ℚ).length (slotCount 3 2 1) →
      (computePeaksFromChannelData [1, 0, 1, 0] 3 2 1).getD 0 0 = 0) ∧
    ((computePeaksFromChannelData [1, 0, 1, 0] 3 2 1).getD 0 0 = 0 ∨
      ∃ s, 0 * samplesPerSlot ([1, 0, 1, 0] : List ℚ).length (slotCount 3 2 1) ≤ s ∧
        s < min ((0 + 1) * samplesPerSlot ([1, 0, 1, 0] : List ℚ).length (slotCount 3 2 1))
          ([1, 0, 1, 0] : List ℚ).length ∧
        (computePeaksFromChannelData [1, 0, 1, 0] 3 2 1).getD 0 0 =
          |([1, 0, 1, 0] : List ℚ).getD s 0|) ∧
    ((∀ x ∈ ([1, 0, 1, 0] : List ℚ), -1 ≤ x ∧ x ≤ 1) →
      0 ≤ (computePeaksFromChannelData [1, 0, 1, 0] 3 2 1).getD 0 0 ∧
        (computePeaksFromChannelData [1, 0, 1, 0] 3 2 1).getD 0 0 ≤ 1)) :=
  ⟨by decide, by decide, by decide,
    by rw [slotCount_three_two_one]; decide,
    c4_slot_values [1, 0, 1, 0] 3 2 1 (by decide) (by decide) (by decide)
      (by rw [slotCount_three_two_one]; decide)⟩

/-- C5: the extractor is total — an empty buffer yields `slotCount` zeros
(no exception), and a geometry collapsing to a single slot yields a
one-element array holding the global maximum absolute value of the buffer. -/
theorem c5_total_edge_cases (ch : List ℚ) (w bw g : ℚ) :
    (ch = [] → computePeaksFromChannelData ch w bw g =
      List.replicate (slotCount w bw g) 0) ∧
    (slotCount w bw g = 1 →
      (computePeaksFromChannelData ch w bw g).length = 1 ∧
      (∀ x ∈ ch, |x| ≤ (computePeaksFromChannelData ch w bw g).getD 0 0) ∧
      ((computePeaksFromChannelData ch w bw g).getD 0 0 = 0 ∨
        ∃ x ∈ ch, (computePeaksFromChannelData ch w bw g).getD 0 0 = |x|)) := by
  constructor
  · rintro rfl
    rw [List.eq_replicate_iff]
    refine ⟨by rw [computePeaks_length], ?_⟩
    intro b hb
    unfold computePeaksFromChannelData at hb
    rcases List.mem_map.1 hb with ⟨j, _, rfl⟩
    rw [slotAbsMax_eq_absMaxOver, absMaxOver_nil]
  · intro h1
    have hchar := computePeaks_getD ch w bw g (i := 0) (by omega)
    have hsps : samplesPerSlot ch.length (slotCount w bw g) =
        if ch.length = 0 then 1 else ch.length := by
      rw [h1]
      unfold samplesPerSlot
      rw [Nat.div_one]
    refine ⟨by rw [computePeaks_length, h1], ?_, ?_⟩
    · intro x hx
      rcases List.mem_iff_getElem.1 hx with ⟨s, hs, rfl⟩
      rw [hchar]
      refine foldl_max_le_of_mem _ _ _ (s := s) ?_ |>.trans_eq' ?_
      · refine List.mem_range'_1.2 ⟨by omega, ?_⟩
        rw [hsps]
        by_cases h : ch.length = 0
        · rw [if_pos h]
          omega
        · rw [if_neg h]
          omega
      · rw [List.getD_eq_getElem _ _ hs]
    · rw [hchar]
      rcases foldl_max_eq_init_or_mem (fun s => |ch.getD s 0|)
          (List.range' (0 * samplesPerSlot ch.length (slotCount w bw g))
            (min (0 * samplesPerSlot ch.length (slotCount w bw g) +
                samplesPerSlot ch.length (slotCount w bw g)) ch.length -
              0 * samplesPerSlot ch.length (slotCount w bw g))) 0 with h | ⟨s, hs, h⟩
      · exact Or.inl h
      · have hb := (List.mem_range'_1.1 hs).2
        have hslen : s < ch.length := by
          rw [hsps] at hb
          by_cases hc : ch.length = 0 <;> simp [hc] at hb <;> omega
        refine Or.inr ⟨ch.getD s 0, ?_, h⟩
        rw [List.getD_eq_getElem _ _ hslen]
        exact List.getElem_mem hslen

/-- C5 witness: the empty buffer, and a collapsing geometry
(`width = 1`, `barWidth = 10`, `gap = 5`) on a two-sample buffer. -/
theorem slotCount_one_ten_five : slotCount 1 10 5 = 1 := by
  unfold slotCount
  rw [show ⌊(1 : ℚ) / (10 + 5)⌋ = 0 by norm_num]
  decide

theorem c5_total_edge_cases_witness :
    (computePeaksFromChannelData ([] : List ℚ) 2 1 0 =
      List.replicate (slotCount 2 1 0) 0) ∧
    ((computePeaksFromChannelData [1, 0] 1 10 5).length = 1 ∧
      (∀ x ∈ ([1, 0] : List ℚ), |x| ≤
        (computePeaksFromChannelData [1, 0] 1 10 5).getD 0 0) ∧
      ((computePeaksFromChannelData [1, 0] 1 10 5).getD 0 0 = 0 ∨
        ∃ x ∈ ([1, 0] : List ℚ),
          (computePeaksFromChannelData [1, 0] 1 10 5).getD 0 0 = |x|)) :=
  ⟨(c5_total_edge_cases [] 2 1 0).1 rfl,
    (c5_total_edge_cases [1, 0] 1 10 5).2 slotCount_one_ten_five⟩

/-! ### C10: the progress-overlay geometry of `drawWaveform` -/

/-- Embedding of the played-width computation in `drawWaveform`
(`useWaveformCanvas`):
`const playedRatio = dur > 0 ? time / dur : 0;`
`const playedWidth = Math.max(0, Math.min(1, playedRatio)) * width;`. -/
def playedWidthOf (time dur width : ℚ) : ℚ :=
  let playedRatio := if dur > 0 then time / dur else 0
  max 0 (min 1 playedRatio) * width

/-- C10: for every `currentTime` and `duration` (zero duration and
`currentTime > duration` included) the played width lies in `[0, width]`;
a non-positive duration takes the guarded branch, yielding ratio `0` and
played width `0`, so no division by zero reaches the drawing calls. -/
theorem c10_played_width_in_range (time dur width : ℚ) (hw : 0 ≤ width) :
    0 ≤ playedWidthOf time dur width ∧
    playedWidthOf time dur width ≤ width ∧
    (dur ≤ 0 → playedWidthOf time dur width = 0) := by
  unfold playedWidthOf
  dsimp only
  refine ⟨?_, ?_, ?_⟩
  · exact mul_nonneg (le_max_left 0 _) hw
  · have h1 : max 0 (min 1 (if dur > 0 then time / dur else 0)) ≤ 1 :=
      max_le (by norm_num) (min_le_left 1 _)
    have h2 := mul_le_mul_of_nonneg_right h1 hw
    rw [one_mul] at h2
    exact h2
  · intro hdur
    rw [if_neg (not_lt.2 hdur)]
    norm_num

/-- C10 witness: `currentTime = 5`, `duration = 0`, `width = 100`. -/
theorem c10_played_width_in_range_witness :
    (0 : ℚ) ≤ 100 ∧
    (0 ≤ playedWidthOf 5 0 100 ∧ playedWidthOf 5 0 100 ≤ 100 ∧
      ((5 : ℚ) ≤ 0 → playedWidthOf 5 0 100 = 0)) := by
  refine ⟨by decide, ?_⟩
  have h := c10_played_width_in_range 5 0 100 (by decide)
  exact ⟨h.1, h.2.1, fun hc => absurd hc (by decide)⟩

/-! ### C9: post-termination progress events -/

/-- State of one background compute channel as observed by `useWaveformData`:
whether the cleanup has issued a terminate for it, and the currently published
peaks.  Termination is `worker.postMessage({type:'terminate'})` (the worker's
handler calls `self.close()`) followed by `worker.terminate()`. -/
structure ChannelState where
  terminated : Bool
  published : Option (List ℚ)

inductive ChannelEvent
  | progress (payload : List ℚ)
  | terminate

/-- One scheduler step.  A delivered `progress` message updates the published
peaks through the `onmessage` handler only while the worker has not been
terminated: after `worker.terminate()` the platform dispatches no further
message events from that worker, and the hook never attaches a new listener
to a terminated worker (the cleanup also nulls `workerRef`). -/
def channelStep (s : ChannelState) : ChannelEvent → ChannelState
  | .progress p => if s.terminated then s else { s with published := some p }
  | .terminate => { s with terminated := true }

def channelRun (s : ChannelState) (evts : List ChannelEvent) : ChannelState :=
  evts.foldl channelStep s

theorem channelRun_of_terminated (evts : List ChannelEvent) :
    ∀ s : ChannelState, s.terminated = true →
      (channelRun s evts).published = s.published ∧
      (channelRun s evts).terminated = true := by
  induction evts with
  | nil => exact fun s h => ⟨rfl, h⟩
  | cons e evts ih =>
    intro s h
    cases e with
    | progress p =>
      have hrun : channelRun s (ChannelEvent.progress p :: evts) =
          channelRun (channelStep s (ChannelEvent.progress p)) evts := rfl
      have hstep : channelStep s (ChannelEvent.progress p) = s := by
        simp only [channelStep]
        rw [if_pos h]
      rw [hrun, hstep]
      exact ih s h
    | terminate =>
      have hrun : channelRun s (ChannelEvent.terminate :: evts) =
          channelRun (channelStep s ChannelEvent.terminate) evts := rfl
      rw [hrun]
      exact ih (channelStep s ChannelEvent.terminate) rfl

/-- C9: once a terminate request has been issued to a channel, no sequence of
subsequent events on that channel — late or queued progress events included —
ever changes the published peaks. -/
theorem c9_no_progress_after_terminate (s : ChannelState) (evts : List ChannelEvent) :
    (channelRun (channelStep s .terminate) evts).published = s.published :=
  (channelRun_of_terminated evts { s with terminated := true } rfl).1

/-! ### C6: geometry-driven recomputation in `useWaveformData` -/

/-- The controller state held in the hook's refs: published peaks, the
retained decoded buffer, and the last committed geometry. -/
structure CtrlState where
  peaks : Option (List ℚ)
  buffer : Option (List ℚ)
  lastWidth : Option ℚ
  lastBarWidth : Option ℚ
  lastGap : Option ℚ

/-- The observable operations performed by the hook. -/
inductive DataAction
  | syncCompute
  | workerDispatch
  | fetchAudio
  | decodeAudio
deriving DecidableEq

/-- `computePeaks(channelData)` in `useWaveformData`: synchronous main-thread
extraction published immediately, then a `compute` message posted to the
worker when one is available. -/
def computePeaksAction (st : CtrlState) (workerAvailable : Bool) (buf : List ℚ)
    (w bw g : ℚ) : CtrlState × List DataAction :=
  ({ st with peaks := some (computePeaksFromChannelData buf w bw g) },
    DataAction.syncCompute :: (if workerAvailable then [DataAction.workerDispatch] else []))

/-- The geometry-recompute effect of `useWaveformData` (deps
`[width, barWidth, gap]`): with a retained buffer, recompute only when
`Math.abs(width - (lastWidthRef.current || 0)) > 1` or barWidth or gap
changed, committing the new values; otherwise do nothing. -/
def recomputeEffect (st : CtrlState) (workerAvailable : Bool) (w bw g : ℚ) :
    CtrlState × List DataAction :=
  match st.buffer with
  | none => (st, [])
  | some buf =>
    if 1 < |w - st.lastWidth.getD 0| ∨ some bw ≠ st.lastBarWidth ∨
        some g ≠ st.lastGap then
      computePeaksAction
        { st with lastWidth := some w, lastBarWidth := some bw, lastGap := some g }
        workerAvailable buf w bw g
    else (st, [])

/-- C6: while a buffer is retained with committed geometry
`(lw, lbw, lg)`, a geometry change triggers re-extraction (synchronous
recompute plus worker re-dispatch, never a fetch or decode) precisely when
the width moved by more than one pixel or barWidth or gap changed at all;
otherwise the effect is a no-op. -/
theorem c6_geometry_recompute (st : CtrlState) (wa : Bool) (w bw g lw lbw lg : ℚ)
    (buf : List ℚ) (hbuf : st.buffer = some buf) (hlw : st.lastWidth = some lw)
    (hlbw : st.lastBarWidth = some lbw) (hlg : st.lastGap = some lg) :
    ((recomputeEffect st wa w bw g).2 ≠ [] ↔ (1 < |w - lw| ∨ bw ≠ lbw ∨ g ≠ lg)) ∧
    DataAction.fetchAudio ∉ (recomputeEffect st wa w bw g).2 ∧
    DataAction.decodeAudio ∉ (recomputeEffect st wa w bw g).2 ∧
    ((1 < |w - lw| ∨ bw ≠ lbw ∨ g ≠ lg) →
      (recomputeEffect st wa w bw g).2 =
        DataAction.syncCompute :: (if wa then [DataAction.workerDispatch] else []) ∧
      (recomputeEffect st wa w bw g).1.peaks =
        some (computePeaksFromChannelData buf w bw g) ∧
      (recomputeEffect st wa w bw g).1.buffer = some buf) ∧
    (¬(1 < |w - lw| ∨ bw ≠ lbw ∨ g ≠ lg) →
      recomputeEffect st wa w bw g = (st, [])) := by
  have hre : recomputeEffect st wa w bw g =
      if 1 < |w - lw| ∨ bw ≠ lbw ∨ g ≠ lg then
        (⟨some (computePeaksFromChannelData buf w bw g), st.buffer,
            some w, some bw, some g⟩,
          DataAction.syncCompute ::
            (if wa then [DataAction.workerDispatch] else []))
      else (st, []) := by
    simp only [recomputeEffect, hbuf, computePeaksAction]
    refine if_congr ?_ rfl rfl
    rw [hlw, hlbw, hlg]
    simp [eq_comm]
  by_cases hc : 1 < |w - lw| ∨ bw ≠ lbw ∨ g ≠ lg
  · rw [hre, if_pos hc]
    refine ⟨iff_of_true (List.cons_ne_nil _ _) hc, ?_, ?_, fun _ => ⟨rfl, rfl, hbuf⟩,
      fun hnc => absurd hc hnc⟩
    · cases wa <;> simp
    · cases wa <;> simp
  · rw [hre, if_neg hc]
    exact ⟨iff_of_false (fun h => h rfl) hc, by simp, by simp,
      fun h => absurd h hc, fun _ => rfl⟩

/-- C6 witness: a committed state at `(100, 3, 2)`; a width change to `101`
(one pixel) with unchanged barWidth and gap triggers nothing, per the iff. -/
theorem c6_geometry_recompute_witness :
    ((recomputeEffect ⟨some [1], some [1, 0], some 100, some 3, some 2⟩ true 101 3 2).2 ≠ [] ↔
      (1 < |(101 : ℚ) - 100| ∨ (3 : ℚ) ≠ 3 ∨ (2 : ℚ) ≠ 2)) ∧
    DataAction.fetchAudio ∉
      (recomputeEffect ⟨some [1], some [1, 0], some 100, some 3, some 2⟩ true 101 3 2).2 ∧
    DataAction.decodeAudio ∉
      (recomputeEffect ⟨some [1], some [1, 0], some 100, some 3, some 2⟩ true 101 3 2).2 ∧
    ((1 < |(101 : ℚ) - 100| ∨ (3 : ℚ) ≠ 3 ∨ (2 : ℚ) ≠ 2) →
      (recomputeEffect ⟨some [1], some [1, 0], some 100, some 3, some 2⟩ true 101 3 2).2 =
        DataAction.syncCompute :: (if true then [DataAction.workerDispatch] else []) ∧
      (recomputeEffect ⟨some [1], some [1, 0], some 100, some 3, some 2⟩ true 101 3 2).1.peaks =
        some (computePeaksFromChannelData [1, 0] 101 3 2) ∧
      (recomputeEffect ⟨some [1], some [1, 0], some 100, some 3, some 2⟩ true 101 3 2).1.buffer =
        some [1, 0]) ∧
    (¬(1 < |(101 : ℚ) - 100| ∨ (3 : ℚ) ≠ 3 ∨ (2 : ℚ) ≠ 2) →
      recomputeEffect ⟨some [1], some [1, 0], some 100, some 3, some 2⟩ true 101 3 2 =
        (⟨some [1], some [1, 0], some 100, some 3, some 2⟩, [])) :=
  c6_geometry_recompute ⟨some [1], some [1, 0], some 100, some 3, some 2⟩ true
    101 3 2 100 3 2 [1, 0] rfl rfl rfl rfl

/-! ### C2: error handling of the audio-load effect in `useWaveformData`

The second `useWaveformData` variant classifies failures in the catch
handler of `loadArrayBuffer` by string matching on the thrown error's
`name` and `message` (`msg.startsWith(...)`, `msg.includes('fetch')`)
and delivers one classified message through `onError`. -/

/-- `pattern`-is-a-prefix-of-`s` test on character lists (the JS
`String.prototype.startsWith`). -/
def charsPrefix : List Char → List Char → Bool
  | [], _ => true
  | _ :: _, [] => false
  | a :: ps, b :: ss => a == b && charsPrefix ps ss

def strStartsWith (s pat : String) : Bool := charsPrefix pat.data s.data

/-- Sliding-window substring test (the JS `String.prototype.includes`). -/
def charsHasSub (s sub : List Char) : Bool :=
  (List.range (s.length + 1)).any fun k => charsPrefix sub (s.drop k)

def strIncludes (s sub : String) : Bool := charsHasSub s.data sub.data

/-- `'Network error: Unable to fetch audio file'` — the classification of the
hook's own non-ok-response error. -/
def networkErrorMsg : String := "Network error: Unable to fetch audio file"

/-- The classification of a native fetch `TypeError` (CORS / network). -/
def corsNetworkErrorMsg : String :=
  "Network error: Unable to fetch audio file. This may be due to CORS restrictions or network issues."

/-- `'Audio decode error: File format may be unsupported or corrupted'`. -/
def decodeErrorMsg : String :=
  "Audio decode error: File format may be unsupported or corrupted"

/-- The message thrown when no `AudioContext` constructor exists; the
classifier's final branch passes it through verbatim. -/
def acMissingMsg : String := "AudioContext not supported in this browser"

/-- The catch handler's message classification (`name` is `err.name`). -/
def classifyLoadError (name msg : String) : String :=
  if strStartsWith msg "Failed to fetch audio:" then networkErrorMsg
  else if name = "TypeError" ∧ strIncludes msg "fetch" then corsNetworkErrorMsg
  else if strStartsWith msg "Failed to decode audio data" then decodeErrorMsg
  else msg

inductive FetchOutcome
  | ok
  | httpError (status : ℕ) (statusText : String)
  | networkThrow

inductive DecodeOutcome
  | ok (channels : List (List ℚ))
  | fail (msg : String)

/-- The `audio` prop: absent, a URL string, a `File`, or anything else
(the silent-no-op unsupported input type). -/
inductive AudioInput
  | noAudio
  | url (s : String)
  | file
  | other

/-- The environment an audio load runs against. -/
structure LoadEnv where
  fetch : FetchOutcome
  audioContextAvailable : Bool
  decode : DecodeOutcome

/-- The decode half of the try block: the `AudioContextClass` check, then
`decodeAudioData` with its inner catch rethrowing a
`'Failed to decode audio data: ...'` error; a channel-less decode yields no
channel data (`numberOfChannels > 0 ? getChannelData(0) : null`). -/
def tryDecode (env : LoadEnv) : Except (String × String) (Option (List ℚ)) :=
  if env.audioContextAvailable then
    match env.decode with
    | .ok channels => .ok channels.head?
    | .fail m => .error ("Error", "Failed to decode audio data: " ++ m)
  else .error ("Error", "AudioContext not supported in this browser")

/-- The try block of `loadArrayBuffer`: fetch (URL inputs only) with the
non-ok check throwing `'Failed to fetch audio: <status> <statusText>'`, a
native fetch failure surfacing as a `TypeError` mentioning `fetch`, the
unsupported-input early return, then decoding. -/
def tryLoadAudio (input : AudioInput) (env : LoadEnv) :
    Except (String × String) (Option (List ℚ)) :=
  match input with
  | .noAudio => .ok none
  | .other => .ok none
  | .url _ =>
    match env.fetch with
    | .httpError status statusText =>
      .error ("Error", "Failed to fetch audio: " ++ toString status ++ " " ++ statusText)
    | .networkThrow => .error ("TypeError", "Failed to fetch")
    | .ok => tryDecode env
  | .file => tryDecode env

structure LoadResult where
  state : CtrlState
  errors : List String

/-- The `[audio]` effect of `useWaveformData`: a falsy `audio` clears peaks
and buffer; otherwise `loadArrayBuffer` runs, its catch handler delivering
exactly one classified message via `onError` (nothing escapes the single
try/catch) while leaving all controller state untouched; on success the
buffer is stored, the geometry committed and `computePeaks` runs. -/
def runLoadEffect (st : CtrlState) (input : AudioInput) (env : LoadEnv)
    (workerAvailable : Bool) (w bw g : ℚ) : LoadResult × List DataAction :=
  match input with
  | .noAudio =>
    ({ state := { st with peaks := none, buffer := none }, errors := [] }, [])
  | _ =>
    match tryLoadAudio input env with
    | .ok none => ({ state := st, errors := [] }, [])
    | .ok (some channelData) =>
      let st2 : CtrlState := ⟨st.peaks, some channelData, some w, some bw, some g⟩
      let r := computePeaksAction st2 workerAvailable channelData w bw g
      ({ state := r.1, errors := [] }, r.2)
    | .error e => ({ state := st, errors := [classifyLoadError e.1 e.2] }, [])

theorem charsPrefix_append_right (p : List Char) :
    ∀ s t : List Char, charsPrefix p s = true → charsPrefix p (s ++ t) = true := by
  induction p with
  | nil => intro s t _; rfl
  | cons a ps ih =>
    intro s t h
    cases s with
    | nil => simp [charsPrefix] at h
    | cons b ss =>
      simp only [charsPrefix, Bool.and_eq_true] at h
      simp only [List.cons_append, charsPrefix, Bool.and_eq_true]
      exact ⟨h.1, ih ss t h.2⟩

theorem charsPrefix_append_of_le (p : List Char) :
    ∀ s t : List Char, p.length ≤ s.length →
      charsPrefix p (s ++ t) = charsPrefix p s := by
  induction p with
  | nil => intro s t _; rfl
  | cons a ps ih =>
    intro s t hlen
    cases s with
    | nil => simp at hlen
    | cons b ss =>
      simp only [List.cons_append, charsPrefix, List.append_eq]
      rw [ih ss t (by simpa using hlen)]

theorem strStartsWith_fetch_prefix (rest : String) :
    strStartsWith ("Failed to fetch audio: " ++ rest) "Failed to fetch audio:" = true := by
  unfold strStartsWith
  rw [String.data_append]
  exact charsPrefix_append_right _ _ _ (by decide)

theorem classify_httpError (status : ℕ) (text : String) :
    classifyLoadError "Error"
      ("Failed to fetch audio: " ++ toString status ++ " " ++ text) = networkErrorMsg := by
  unfold classifyLoadError
  rw [if_pos ?hpos]
  case hpos =>
    have h : "Failed to fetch audio: " ++ toString status ++ " " ++ text =
        "Failed to fetch audio: " ++ (toString status ++ " " ++ text) := by
      simp [String.append_assoc]
    rw [h]
    exact strStartsWith_fetch_prefix _

theorem classify_networkThrow :
    classifyLoadError "TypeError" "Failed to fetch" = corsNetworkErrorMsg := by
  unfold classifyLoadError
  rw [if_neg (by decide), if_pos ⟨rfl, by decide⟩]

theorem classify_decodeError (m : String) :
    classifyLoadError "Error" ("Failed to decode audio data: " ++ m) = decodeErrorMsg := by
  unfold classifyLoadError
  rw [if_neg ?hfetch, if_neg ?hcors, if_pos ?hdecode]
  case hfetch =>
    unfold strStartsWith
    rw [String.data_append, charsPrefix_append_of_le _ _ _ (by decide)]
    decide
  case hcors =>
    rintro ⟨h, -⟩
    exact absurd h (by decide)
  case hdecode =>
    unfold strStartsWith
    rw [String.data_append]
    exact charsPrefix_append_right _ _ _ (by decide)

theorem classify_acMissing :
    classifyLoadError "Error" "AudioContext not supported in this browser" =
      acMissingMsg := by
  unfold classifyLoadError
  rw [if_neg (by decide), if_neg ?hcors, if_neg (by decide)]
  · rfl
  case hcors =>
    rintro ⟨h, -⟩
    exact absurd h (by decide)

theorem runLoadEffect_url_error (st : CtrlState) (env : LoadEnv) (wa : Bool)
    (w bw g : ℚ) (s : String) (e : String × String)
    (h : tryLoadAudio (.url s) env = .error e) :
    runLoadEffect st (.url s) env wa w bw g =
      ({ state := st, errors := [classifyLoadError e.1 e.2] }, []) := by
  unfold runLoadEffect
  rw [h]

theorem runLoadEffect_file_error (st : CtrlState) (env : LoadEnv) (wa : Bool)
    (w bw g : ℚ) (e : String × String)
    (h : tryLoadAudio .file env = .error e) :
    runLoadEffect st .file env wa w bw g =
      ({ state := st, errors := [classifyLoadError e.1 e.2] }, []) := by
  unfold runLoadEffect
  rw [h]

/-- C2 (amended): every failing load — HTTP error, native fetch failure,
missing decode capability, decode failure — delivers exactly one
classification-specific human-readable message through the error callback
(the four classifications pairwise distinct), and nothing escapes the
effect's single try/catch; however the previously published peaks, and all
other controller state, are left untouched rather than cleared to null —
`setPeaks(null)` runs only when the `audio` prop itself is cleared. -/
theorem c2_load_error_handling (st : CtrlState) (env : LoadEnv) (wa : Bool)
    (w bw g : ℚ) (s : String) :
    (∀ status text, env.fetch = .httpError status text →
      (runLoadEffect st (.url s) env wa w bw g).1.errors = [networkErrorMsg] ∧
      (runLoadEffect st (.url s) env wa w bw g).1.state = st) ∧
    (env.fetch = .networkThrow →
      (runLoadEffect st (.url s) env wa w bw g).1.errors = [corsNetworkErrorMsg] ∧
      (runLoadEffect st (.url s) env wa w bw g).1.state = st) ∧
    (env.audioContextAvailable = false →
      (runLoadEffect st .file env wa w bw g).1.errors = [acMissingMsg] ∧
      (runLoadEffect st .file env wa w bw g).1.state = st) ∧
    (∀ m, env.audioContextAvailable = true → env.decode = .fail m →
      (runLoadEffect st .file env wa w bw g).1.errors = [decodeErrorMsg] ∧
      (runLoadEffect st .file env wa w bw g).1.state = st) ∧
    (runLoadEffect st .noAudio env wa w bw g).1.state.peaks = none ∧
    (networkErrorMsg ≠ corsNetworkErrorMsg ∧ networkErrorMsg ≠ decodeErrorMsg ∧
      networkErrorMsg ≠ acMissingMsg ∧ corsNetworkErrorMsg ≠ decodeErrorMsg ∧
      corsNetworkErrorMsg ≠ acMissingMsg ∧ decodeErrorMsg ≠ acMissingMsg) := by
  refine ⟨?_, ?_, ?_, ?_, rfl, by decide, by decide, by decide, by decide, by decide, by decide⟩
  · intro status text hf
    have ht : tryLoadAudio (.url s) env =
        .error ("Error", "Failed to fetch audio: " ++ toString status ++ " " ++ text) := by
      unfold tryLoadAudio
      rw [hf]
    rw [runLoadEffect_url_error st env wa w bw g s _ ht]
    exact ⟨by rw [classify_httpError], rfl⟩
  · intro hf
    have ht : tryLoadAudio (.url s) env = .error ("TypeError", "Failed to fetch") := by
      unfold tryLoadAudio
      rw [hf]
    rw [runLoadEffect_url_error st env wa w bw g s _ ht]
    exact ⟨by rw [classify_networkThrow], rfl⟩
  · intro hac
    have ht : tryLoadAudio .file env =
        .error ("Error", "AudioContext not supported in this browser") := by
      unfold tryLoadAudio tryDecode
      rw [hac]
      rfl
    rw [runLoadEffect_file_error st env wa w bw g _ ht]
    exact ⟨by rw [classify_acMissing], rfl⟩
  · intro m hac hd
    have ht : tryLoadAudio .file env =
        .error ("Error", "Failed to decode audio data: " ++ m) := by
      unfold tryLoadAudio tryDecode
      rw [hac, hd]
      rfl
    rw [runLoadEffect_file_error st env wa w bw g _ ht]
    exact ⟨by rw [classify_decodeError], rfl⟩

/-- C2 witness: a concrete HTTP 404 failure delivers the network
classification once and leaves the controller state untouched. -/
theorem c2_load_error_handling_witness :
    (runLoadEffect ⟨some [1], some [1], some 100, some 3, some 2⟩ (.url "/a.mp3")
        ⟨.httpError 404 "Not Found", true, .ok []⟩ true 100 3 2).1.errors =
      [networkErrorMsg] ∧
    (runLoadEffect ⟨some [1], some [1], some 100, some 3, some 2⟩ (.url "/a.mp3")
        ⟨.httpError 404 "Not Found", true, .ok []⟩ true 100 3 2).1.state =
      ⟨some [1], some [1], some 100, some 3, some 2⟩ :=
  (c2_load_error_handling ⟨some [1], some [1], some 100, some 3, some 2⟩
      ⟨.httpError 404 "Not Found", true, .ok []⟩ true 100 3 2 "/a.mp3").1
    404 "Not Found" rfl

/-- C2 counterexample: with peaks already published from an earlier load, a
failing fetch delivers the (correct) network classification but leaves the
published peaks in place — the controller is not reset to Idle with peaks
null, contradicting the claim. -/
theorem c2_counterexample :
    (runLoadEffect ⟨some [1], some [1], some 100, some 3, some 2⟩ (.url "/a.mp3")
        ⟨.httpError 404 "Not Found", true, .ok []⟩ true 100 3 2).1.errors =
      [networkErrorMsg] ∧
    (runLoadEffect ⟨some [1], some [1], some 100, some 3, some 2⟩ (.url "/a.mp3")
        ⟨.httpError 404 "Not Found", true, .ok []⟩ true 100 3 2).1.state.peaks =
      some [1] ∧
    some [1] ≠ (none : Option (List ℚ)) := by
  have h := runLoadEffect_url_error ⟨some [1], some [1], some 100, some 3, some 2⟩
    ⟨.httpError 404 "Not Found", true, .ok []⟩ true 100 3 2 "/a.mp3"
    ("Error", "Failed to fetch audio: " ++ toString 404 ++ " " ++ "Not Found") rfl
  rw [h]
  exact ⟨by rw [classify_httpError], rfl, by simp⟩

/-! ### C7, C8: the base-bitmap cache and ready signal of `useWaveformCanvas`

Embeds the cached-compositor variant of `useWaveformCanvas`: the effect with
deps `[peaks, barWidth, gap, displayMode, barColor, backgroundColor]` clears
`baseWaveformCache` and resets `readyDispatchedRef`; the effect with deps
`[width, height]` clears the cache only; `drawWaveform` blits the cache when
present, else rebuilds it and — when `readyDispatchedRef` is unset — sets the
`__waveformReady` flag and dispatches the `waveform-ready` event. -/

inductive DisplayMode
  | bars
  | analog
deriving DecidableEq

/-- The hook's inputs; `peaksId` stands for the identity (reference) of the
peaks array, which is what the React dep comparison sees. -/
structure CanvasInputs where
  width : ℚ
  height : ℚ
  barWidth : ℚ
  gap : ℚ
  displayMode : DisplayMode
  barColor : String
  progressColor : String
  backgroundColor : String
  playheadColor : String
  peaksId : ℕ
deriving DecidableEq

/-- Dep change of the cache-invalidation effect
(`[peaks, barWidth, gap, displayMode, barColor, backgroundColor]`). -/
def invalidationDepsChanged (old new : CanvasInputs) : Prop :=
  new.peaksId ≠ old.peaksId ∨ new.barWidth ≠ old.barWidth ∨ new.gap ≠ old.gap ∨
  new.displayMode ≠ old.displayMode ∨ new.barColor ≠ old.barColor ∨
  new.backgroundColor ≠ old.backgroundColor

instance (old new : CanvasInputs) : Decidable (invalidationDepsChanged old new) := by
  unfold invalidationDepsChanged
  infer_instance

/-- Dep change of the canvas-resize effect (`[width, height]`). -/
def resizeDepsChanged (old new : CanvasInputs) : Prop :=
  new.width ≠ old.width ∨ new.height ≠ old.height

instance (old new : CanvasInputs) : Decidable (resizeDepsChanged old new) := by
  unfold resizeDepsChanged
  infer_instance

/-- Whether a render with changed inputs clears the base cache. -/
def baseCacheInvalidated (old new : CanvasInputs) : Prop :=
  invalidationDepsChanged old new ∨ resizeDepsChanged old new

instance (old new : CanvasInputs) : Decidable (baseCacheInvalidated old new) := by
  unfold baseCacheInvalidated
  infer_instance

/-- The invalidation-trigger set the spec claims: peaks identity, bar width,
gap, bar color, background color, canvas size — `displayMode` is absent from
it. -/
def claimedInvalidationSet (old new : CanvasInputs) : Prop :=
  new.peaksId ≠ old.peaksId ∨ new.barWidth ≠ old.barWidth ∨ new.gap ≠ old.gap ∨
  new.barColor ≠ old.barColor ∨ new.backgroundColor ≠ old.backgroundColor ∨
  new.width ≠ old.width ∨ new.height ≠ old.height

instance (old new : CanvasInputs) : Decidable (claimedInvalidationSet old new) := by
  unfold claimedInvalidationSet
  infer_instance

/-- Compositor state: the cached base bitmap (tagged with the inputs it was
rendered from), the `readyDispatchedRef` flag, and how many times the ready
signal has fired. -/
structure CompositorState where
  cache : Option CanvasInputs
  readyDispatched : Bool
  readyCount : ℕ
deriving DecidableEq

/-- A re-render with changed inputs: both invalidation effects run. -/
def applyInputsChange (s : CompositorState) (old new : CanvasInputs) :
    CompositorState :=
  let s1 := if invalidationDepsChanged old new then
    { s with cache := none, readyDispatched := false } else s
  if resizeDepsChanged old new then { s1 with cache := none } else s1

/-- One `drawWaveform` call: blit the cached bitmap when present (no
rebuild); else rebuild and cache the base waveform, firing the ready signal
when the flag is unset.  Returns the new state and whether the base was
rebuilt. -/
def drawFrame (s : CompositorState) (inp : CanvasInputs) :
    CompositorState × Bool :=
  match s.cache with
  | some _ => (s, false)
  | none =>
    (⟨some inp, true, s.readyCount + (if s.readyDispatched then 0 else 1)⟩, true)

/-- `n` consecutive `drawWaveform` calls with unchanged inputs. -/
def drawMany (s : CompositorState) (inp : CanvasInputs) : ℕ → CompositorState
  | 0 => s
  | n + 1 => drawMany (drawFrame s inp).1 inp n

/-- C7 (amended): the base cache is invalidated when and only when one of
{peaks identity, bar width, gap, bar color, background color, canvas size}
— or the display mode, which the claim's list omits — changes; a
non-invalidating change (progress color, playhead color, or any other
untracked input) leaves the cache in place, and the next frame blits the
previously cached bitmap without rebuilding. -/
theorem c7_cache_invalidation (old new : CanvasInputs) :
    (baseCacheInvalidated old new ↔
      (claimedInvalidationSet old new ∨ new.displayMode ≠ old.displayMode)) ∧
    (¬baseCacheInvalidated old new →
      ∀ s : CompositorState, applyInputsChange s old new = s) ∧
    (¬baseCacheInvalidated old new →
      ∀ (s : CompositorState) (c : CanvasInputs), s.cache = some c →
        (drawFrame (applyInputsChange s old new) new).2 = false ∧
        (drawFrame (applyInputsChange s old new) new).1 = s) := by
  have hnochange : ∀ s : CompositorState, ¬baseCacheInvalidated old new →
      applyInputsChange s old new = s := by
    intro s h
    unfold baseCacheInvalidated at h
    push_neg at h
    unfold applyInputsChange
    rw [if_neg h.1, if_neg h.2]
  refine ⟨?_, fun h s => hnochange s h, ?_⟩
  · unfold baseCacheInvalidated invalidationDepsChanged resizeDepsChanged
      claimedInvalidationSet
    tauto
  · intro h s c hc
    rw [hnochange s h]
    unfold drawFrame
    rw [hc]
    exact ⟨rfl, rfl⟩

/-- C7 witness: a change of the progress color alone neither invalidates the
cache nor triggers a rebuild on the next frame. -/
theorem c7_cache_invalidation_witness :
    (¬baseCacheInvalidated
        ⟨800, 120, 3, 2, .bars, "#2b6ef6", "#0747a6", "transparent", "#ff4d4f", 1⟩
        ⟨800, 120, 3, 2, .bars, "#2b6ef6", "#ffffff", "transparent", "#ff4d4f", 1⟩) ∧
    applyInputsChange
        ⟨some ⟨800, 120, 3, 2, .bars, "#2b6ef6", "#0747a6", "transparent", "#ff4d4f", 1⟩,
          true, 1⟩
        ⟨800, 120, 3, 2, .bars, "#2b6ef6", "#0747a6", "transparent", "#ff4d4f", 1⟩
        ⟨800, 120, 3, 2, .bars, "#2b6ef6", "#ffffff", "transparent", "#ff4d4f", 1⟩ =
      ⟨some ⟨800, 120, 3, 2, .bars, "#2b6ef6", "#0747a6", "transparent", "#ff4d4f", 1⟩,
        true, 1⟩ ∧
    (drawFrame (applyInputsChange
        ⟨some ⟨800, 120, 3, 2, .bars, "#2b6ef6", "#0747a6", "transparent", "#ff4d4f", 1⟩,
          true, 1⟩
        ⟨800, 120, 3, 2, .bars, "#2b6ef6", "#0747a6", "transparent", "#ff4d4f", 1⟩
        ⟨800, 120, 3, 2, .bars, "#2b6ef6", "#ffffff", "transparent", "#ff4d4f", 1⟩)
        ⟨800, 120, 3, 2, .bars, "#2b6ef6", "#ffffff", "transparent", "#ff4d4f", 1⟩).2 =
      false := by
  have hni : ¬baseCacheInvalidated
      ⟨800, 120, 3, 2, .bars, "#2b6ef6", "#0747a6", "transparent", "#ff4d4f", 1⟩
      ⟨800, 120, 3, 2, .bars, "#2b6ef6", "#ffffff", "transparent", "#ff4d4f", 1⟩ := by
    decide
  have h := c7_cache_invalidation
    ⟨800, 120, 3, 2, .bars, "#2b6ef6", "#0747a6", "transparent", "#ff4d4f", 1⟩
    ⟨800, 120, 3, 2, .bars, "#2b6ef6", "#ffffff", "transparent", "#ff4d4f", 1⟩
  refine ⟨hni, h.2.1 hni _, (h.2.2 hni _
    ⟨800, 120, 3, 2, .bars, "#2b6ef6", "#0747a6", "transparent", "#ff4d4f", 1⟩ rfl).1⟩

/-- C7 counterexample: flipping `displayMode` from `bars` to `analog` — an
input outside the claim's invalidation set — does clear the base cache, so
the cache is not invalidated "only" on the claimed set. -/
theorem c7_counterexample :
    baseCacheInvalidated
      ⟨800, 120, 3, 2, .bars, "#2b6ef6", "#0747a6", "transparent", "#ff4d4f", 1⟩
      ⟨800, 120, 3, 2, .analog, "#2b6ef6", "#0747a6", "transparent", "#ff4d4f", 1⟩ ∧
    ¬claimedInvalidationSet
      ⟨800, 120, 3, 2, .bars, "#2b6ef6", "#0747a6", "transparent", "#ff4d4f", 1⟩
      ⟨800, 120, 3, 2, .analog, "#2b6ef6", "#0747a6", "transparent", "#ff4d4f", 1⟩ ∧
    (applyInputsChange
        ⟨some ⟨800, 120, 3, 2, .bars, "#2b6ef6", "#0747a6", "transparent", "#ff4d4f", 1⟩,
          true, 1⟩
        ⟨800, 120, 3, 2, .bars, "#2b6ef6", "#0747a6", "transparent", "#ff4d4f", 1⟩
        ⟨800, 120, 3, 2, .analog, "#2b6ef6", "#0747a6", "transparent", "#ff4d4f", 1⟩).cache =
      none := by
  refine ⟨by decide, by decide, ?_⟩
  have hinv : invalidationDepsChanged
      ⟨800, 120, 3, 2, .bars, "#2b6ef6", "#0747a6", "transparent", "#ff4d4f", 1⟩
      ⟨800, 120, 3, 2, .analog, "#2b6ef6", "#0747a6", "transparent", "#ff4d4f", 1⟩ := by
    decide
  have hres : ¬resizeDepsChanged
      ⟨800, 120, 3, 2, .bars, "#2b6ef6", "#0747a6", "transparent", "#ff4d4f", 1⟩
      ⟨800, 120, 3, 2, .analog, "#2b6ef6", "#0747a6", "transparent", "#ff4d4f", 1⟩ := by
    decide
  unfold applyInputsChange
  rw [if_pos hinv, if_neg hres]

theorem drawMany_of_dispatched (inp : CanvasInputs) :
    ∀ (n : ℕ) (s : CompositorState), s.readyDispatched = true →
      (drawMany s inp n).readyCount = s.readyCount ∧
      (drawMany s inp n).readyDispatched = true := by
  intro n
  induction n with
  | zero => exact fun s h => ⟨rfl, h⟩
  | succ n ih =>
    intro s h
    show (drawMany (drawFrame s inp).1 inp n).readyCount = s.readyCount ∧
      (drawMany (drawFrame s inp).1 inp n).readyDispatched = true
    match hc : s.cache with
    | some c =>
      have hf : (drawFrame s inp).1 = s := by
        unfold drawFrame
        rw [hc]
      rw [hf]
      exact ih s h
    | none =>
      have hf : (drawFrame s inp).1 = ⟨some inp, true, s.readyCount⟩ := by
        unfold drawFrame
        rw [hc, h]
        rfl
      rw [hf]
      exact ih ⟨some inp, true, s.readyCount⟩ rfl

theorem drawMany_count_le (inp : CanvasInputs) :
    ∀ (n : ℕ) (s : CompositorState),
      (drawMany s inp n).readyCount ≤ s.readyCount + 1 := by
  intro n
  induction n with
  | zero => exact fun s => Nat.le_succ _
  | succ n ih =>
    intro s
    show (drawMany (drawFrame s inp).1 inp n).readyCount ≤ s.readyCount + 1
    match hc : s.cache with
    | some c =>
      have hf : (drawFrame s inp).1 = s := by
        unfold drawFrame
        rw [hc]
      rw [hf]
      exact ih s
    | none =>
      match hd : s.readyDispatched with
      | true =>
        have hf : (drawFrame s inp).1 = ⟨some inp, true, s.readyCount⟩ := by
          unfold drawFrame
          rw [hc, hd]
          rfl
        rw [hf]
        have h2 := (drawMany_of_dispatched inp n ⟨some inp, true, s.readyCount⟩ rfl).1
        have h3 : (⟨some inp, true, s.readyCount⟩ : CompositorState).readyCount =
            s.readyCount := rfl
        omega
      | false =>
        have hf : (drawFrame s inp).1 = ⟨some inp, true, s.readyCount + 1⟩ := by
          unfold drawFrame
          rw [hc, hd]
          rfl
        rw [hf]
        have h2 := (drawMany_of_dispatched inp n ⟨some inp, true, s.readyCount + 1⟩ rfl).1
        have h3 : (⟨some inp, true, s.readyCount + 1⟩ : CompositorState).readyCount =
            s.readyCount + 1 := rfl
        omega

/-- C8 (amended): the ready signal fires at most once per invalidation
cycle, not at most once per loaded audio: over any run of consecutive draws
with unchanged inputs the signal fires at most once — and not at all when
the dispatched flag is already set — but every invalidating input change
(a new peaks array identity from the same audio's worker refinement
included) resets the flag, re-arming the signal for the next cache rebuild. -/
theorem c8_ready_signal (s : CompositorState) (inp : CanvasInputs) (n : ℕ) :
    (drawMany s inp n).readyCount ≤ s.readyCount + 1 ∧
    (s.readyDispatched = true → (drawMany s inp n).readyCount = s.readyCount) ∧
    (∀ old new, invalidationDepsChanged old new →
      (applyInputsChange s old new).readyDispatched = false) := by
  refine ⟨drawMany_count_le inp n s,
    fun h => (drawMany_of_dispatched inp n s h).1, ?_⟩
  intro o p h
  unfold applyInputsChange
  rw [if_pos h]
  by_cases hr : resizeDepsChanged o p
  · rw [if_pos hr]
  · rw [if_neg hr]

/-- C8 witness: the signal theorem at a concrete already-dispatched state
and concrete inputs. -/
theorem c8_ready_signal_witness :
    ((drawMany ⟨some ⟨800, 120, 3, 2, .bars, "#000", "#111", "#222", "#333", 1⟩, true, 1⟩
        ⟨800, 120, 3, 2, .bars, "#000", "#111", "#222", "#333", 1⟩ 5).readyCount ≤ 1 + 1 ∧
    (true = true →
      (drawMany ⟨some ⟨800, 120, 3, 2, .bars, "#000", "#111", "#222", "#333", 1⟩, true, 1⟩
        ⟨800, 120, 3, 2, .bars, "#000", "#111", "#222", "#333", 1⟩ 5).readyCount = 1) ∧
    (∀ old new, invalidationDepsChanged old new →
      (applyInputsChange
        ⟨some ⟨800, 120, 3, 2, .bars, "#000", "#111", "#222", "#333", 1⟩, true, 1⟩
        old new).readyDispatched = false)) :=
  c8_ready_signal ⟨some ⟨800, 120, 3, 2, .bars, "#000", "#111", "#222", "#333", 1⟩, true, 1⟩
    ⟨800, 120, 3, 2, .bars, "#000", "#111", "#222", "#333", 1⟩ 5

/-- C8 counterexample: within a single loaded audio, a first cache build
fires the ready signal; a worker progress event then changes the peaks array
identity, invalidating the cache and resetting the dispatched flag, and the
next cache rebuild fires the signal a second time — so the signal is not
at-most-once per loaded audio. -/
theorem c8_counterexample :
    (drawFrame (applyInputsChange
        (drawFrame ⟨none, false, 0⟩
          ⟨800, 120, 3, 2, .bars, "#000", "#111", "#222", "#333", 1⟩).1
        ⟨800, 120, 3, 2, .bars, "#000", "#111", "#222", "#333", 1⟩
        ⟨800, 120, 3, 2, .bars, "#000", "#111", "#222", "#333", 2⟩)
      ⟨800, 120, 3, 2, .bars, "#000", "#111", "#222", "#333", 2⟩).1.readyCount = 2 ∧
    ¬(2 ≤ 1) := by
  exact ⟨by decide, by decide⟩

end WaveformNav
